import Mathlib

/-!
Verification of the dog_dash core components.

Two leaf components are embedded here, following the source:

* the WASM collision module (src/assembly/index.ts): growable flat buffers of
  circle records plus a linear first-match intersection scan;
* the particle pool (src/unnamed/part_006, class ParticleSystem): a fixed
  capacity struct-of-arrays store with swap-remove compaction.

Scalars that the source keeps in f32/f64 are modelled as exact rationals
(collision module) or exact reals (particle pool, whose spawn path calls
Math.sqrt).  Rendering side effects (InstancedMesh matrix and color writes)
are omitted: they read particle state but never write it.
-/

namespace DogDash

/-! ### Collision module state (src/assembly/index.ts, module globals) -/

/-- The module-level mutable globals of src/assembly/index.ts: base pointer and
capacity (in records) for each of the two buffers.  The extra field
nextAlloc models the AssemblyScript runtime bump allocator: the runtime heap
is not part of the repository, so allocation is modelled abstractly as a bump
allocator handing out nonzero, fresh addresses (the runtime heap base is
nonzero; the source comments rely on the buffer never sitting at offset 0). -/
structure WasmState where
  asteroidsPtr : ℕ
  asteroidsCapacity : ℤ
  sporeCloudsPtr : ℕ
  sporeCloudsCapacity : ℤ
  nextAlloc : ℕ
deriving Repr, DecidableEq

/-- Fresh module instance: both pointers 0, both capacities 0, heap break at a
nonzero base address. -/
def initialWasmState : WasmState :=
  { asteroidsPtr := 0, asteroidsCapacity := 0
    sporeCloudsPtr := 0, sporeCloudsCapacity := 0, nextAlloc := 8 }

/-- Model of the runtime heap.alloc: returns the current break (a nonzero
address) and advances it by the requested byte count. -/
def heapAlloc (next : ℕ) (bytes : ℤ) : ℕ × ℕ :=
  (next, next + bytes.toNat)

/-- Model of the runtime heap.realloc: may move the block, modelled as a fresh
bump allocation (the old pointer is abandoned). -/
def heapRealloc (next : ℕ) (_oldPtr : ℕ) (bytes : ℤ) : ℕ × ℕ :=
  (next, next + bytes.toNat)

/-- allocAsteroids (src/assembly/index.ts lines 16 to 32): grow the asteroid
buffer to hold count records of 12 bytes when count exceeds the current
capacity, and return the (possibly moved) base pointer together with the new
module state. -/
def allocAsteroids (s : WasmState) (count : ℤ) : WasmState × ℕ :=
  let requiredBytes := count * 12
  if count > s.asteroidsCapacity then
    if s.asteroidsCapacity = 0 then
      let a := heapAlloc s.nextAlloc requiredBytes
      ({ s with asteroidsPtr := a.1, asteroidsCapacity := count, nextAlloc := a.2 }, a.1)
    else
      let a := heapRealloc s.nextAlloc s.asteroidsPtr requiredBytes
      ({ s with asteroidsPtr := a.1, asteroidsCapacity := count, nextAlloc := a.2 }, a.1)
  else
    (s, s.asteroidsPtr)

/-- allocSporeClouds (src/assembly/index.ts lines 36 to 49): same contract as
allocAsteroids with 16-byte records. -/
def allocSporeClouds (s : WasmState) (count : ℤ) : WasmState × ℕ :=
  let requiredBytes := count * 16
  if count > s.sporeCloudsCapacity then
    if s.sporeCloudsCapacity = 0 then
      let a := heapAlloc s.nextAlloc requiredBytes
      ({ s with sporeCloudsPtr := a.1, sporeCloudsCapacity := count, nextAlloc := a.2 }, a.1)
    else
      let a := heapRealloc s.nextAlloc s.sporeCloudsPtr requiredBytes
      ({ s with sporeCloudsPtr := a.1, sporeCloudsCapacity := count, nextAlloc := a.2 }, a.1)
  else
    (s, s.sporeCloudsPtr)

/-! ### Collision queries

Linear memory is modelled as a function from byte address to the f32 value a
load at that address would produce, as an exact rational. -/

/-- Loop body of checkCollision (src/assembly/index.ts lines 61 to 80): scan
records of stride 12 starting at ptr, returning the current index on the
first overlap and -1 past the end. -/
def checkCollisionLoop (mem : ℕ → ℚ) (playerX playerY playerRadius : ℚ)
    (objectCount : ℤ) (ptr : ℕ) (i : ℕ) : ℤ :=
  if h : (i : ℤ) < objectCount then
    let objX := mem ptr
    let objY := mem (ptr + 4)
    let objR := mem (ptr + 8)
    let dx := playerX - objX
    let dy := playerY - objY
    let distSq := dx * dx + dy * dy
    let radii := playerRadius + objR
    if distSq < radii * radii then (i : ℤ)
    else checkCollisionLoop mem playerX playerY playerRadius objectCount (ptr + 12) (i + 1)
  else
    -1
termination_by objectCount.toNat - i
decreasing_by omega

/-- checkCollision (src/assembly/index.ts lines 53 to 82): guard against an
empty object list or a never-allocated buffer, then scan from the asteroid
base pointer. -/
def checkCollision (mem : ℕ → ℚ) (s : WasmState)
    (playerX playerY playerRadius : ℚ) (objectCount : ℤ) : ℤ :=
  if objectCount = 0 ∨ s.asteroidsPtr = 0 then -1
  else checkCollisionLoop mem playerX playerY playerRadius objectCount s.asteroidsPtr 0

/-- Loop body of checkSporeCollision (src/assembly/index.ts lines 93 to 111):
stride-16 records carrying an extra z coordinate. -/
def checkSporeCollisionLoop (mem : ℕ → ℚ) (playerX playerY playerZ playerRadius : ℚ)
    (objectCount : ℤ) (ptr : ℕ) (i : ℕ) : ℤ :=
  if h : (i : ℤ) < objectCount then
    let objX := mem ptr
    let objY := mem (ptr + 4)
    let objZ := mem (ptr + 8)
    let objR := mem (ptr + 12)
    let dx := playerX - objX
    let dy := playerY - objY
    let dz := playerZ - objZ
    let distSq := dx * dx + dy * dy + dz * dz
    let radii := playerRadius + objR
    if distSq < radii * radii then (i : ℤ)
    else checkSporeCollisionLoop mem playerX playerY playerZ playerRadius objectCount (ptr + 16) (i + 1)
  else
    -1
termination_by objectCount.toNat - i
decreasing_by omega

/-- checkSporeCollision (src/assembly/index.ts lines 86 to 113). -/
def checkSporeCollision (mem : ℕ → ℚ) (s : WasmState)
    (playerX playerY playerZ playerRadius : ℚ) (objectCount : ℤ) : ℤ :=
  if objectCount = 0 ∨ s.sporeCloudsPtr = 0 then -1
  else checkSporeCollisionLoop mem playerX playerY playerZ playerRadius objectCount s.sporeCloudsPtr 0

/-- Overlap predicate for asteroid record i as the scan reads it: squared
center distance strictly below the squared sum of radii. -/
def asteroidHit (mem : ℕ → ℚ) (base : ℕ) (playerX playerY playerRadius : ℚ) (i : ℕ) : Prop :=
  (playerX - mem (base + 12 * i)) * (playerX - mem (base + 12 * i)) +
      (playerY - mem (base + 12 * i + 4)) * (playerY - mem (base + 12 * i + 4)) <
    (playerRadius + mem (base + 12 * i + 8)) * (playerRadius + mem (base + 12 * i + 8))

instance (mem : ℕ → ℚ) (base : ℕ) (playerX playerY playerRadius : ℚ) (i : ℕ) :
    Decidable (asteroidHit mem base playerX playerY playerRadius i) := by
  unfold asteroidHit; infer_instance

/-! ### Particle pool (src/unnamed/part_006, class ParticleSystem)

The struct-of-arrays store is modelled as a single function from slot index to
a record holding the twelve per-particle scalars, one field per source array,
together with the live count.  A slot write in the source touches exactly the
twelve fields at one index, which the model expresses as one function update. -/

/-- One pool slot: the twelve scalars the source keeps in its parallel
Float32Arrays, named after those arrays. -/
structure Particle where
  px : ℝ
  py : ℝ
  pz : ℝ
  vx : ℝ
  vy : ℝ
  vz : ℝ
  life : ℝ
  maxLife : ℝ
  size : ℝ
  cr : ℝ
  cg : ℝ
  cb : ℝ

/-- Pool state: fixed capacity, live count, slot store. -/
structure Pool where
  maxParticles : ℕ
  count : ℕ
  arr : ℕ → Particle

/-- Value of every slot after construction: Float32Arrays are zero filled. -/
def zeroParticle : Particle :=
  { px := 0, py := 0, pz := 0, vx := 0, vy := 0, vz := 0,
    life := 0, maxLife := 0, size := 0, cr := 0, cg := 0, cb := 0 }

/-- A pool as the constructor leaves it: zero live particles. -/
def freshPool (capacity : ℕ) : Pool :=
  { maxParticles := capacity, count := 0, arr := fun _ => zeroParticle }

/-- Emission origin (the THREE.Vector3 argument of emit). -/
structure V3 where
  x : ℝ
  y : ℝ
  z : ℝ

/-- The color triple obtained from the hex argument of emit (the conversion
performed by THREE.Color is a library concern; the triple is what emit
stores). -/
structure ColorRGB where
  r : ℝ
  g : ℝ
  b : ℝ

/-- The nine Math.random() draws one loop iteration of emit makes, in source
order: three position jitters, three velocity components, the speed factor,
the lifetime, and the size factor. -/
structure EmitDraws where
  jx : ℝ
  jy : ℝ
  jz : ℝ
  rvx : ℝ
  rvy : ℝ
  rvz : ℝ
  rs : ℝ
  rl : ℝ
  rsize : ℝ

/-- All draws of one iteration lie in the range of Math.random. -/
def ValidDraw (d : EmitDraws) : Prop :=
  (0 ≤ d.jx ∧ d.jx < 1) ∧ (0 ≤ d.jy ∧ d.jy < 1) ∧ (0 ≤ d.jz ∧ d.jz < 1) ∧
  (0 ≤ d.rvx ∧ d.rvx < 1) ∧ (0 ≤ d.rvy ∧ d.rvy < 1) ∧ (0 ≤ d.rvz ∧ d.rvz < 1) ∧
  (0 ≤ d.rs ∧ d.rs < 1) ∧ (0 ≤ d.rl ∧ d.rl < 1) ∧ (0 ≤ d.rsize ∧ d.rsize < 1)

/-- The particle one emit iteration writes into its slot (source lines 102 to
127): jittered position, a random direction normalised by its Euclidean
length with the JS guard len or 1 against a zero length, scaled by
speed times a factor in the half-open interval from 0.5 to 1, the supplied
color, a lifetime in the half-open interval from 0.5 to 1 stored as both
remaining and total life, and a scaled size. -/
noncomputable def mkParticle (pos : V3) (color : ColorRGB)
    (speed size spread : ℝ) (d : EmitDraws) : Particle :=
  let vx0 := d.rvx - 0.5
  let vy0 := d.rvy - 0.5
  let vz0 := d.rvz - 0.5
  let len0 := Real.sqrt (vx0 * vx0 + vy0 * vy0 + vz0 * vz0)
  let len := if len0 = 0 then 1 else len0
  let sv := speed * (0.5 + d.rs * 0.5)
  let life := 0.5 + d.rl * 0.5
  { px := pos.x + (d.jx - 0.5) * spread
    py := pos.y + (d.jy - 0.5) * spread
    pz := pos.z + (d.jz - 0.5) * spread
    vx := vx0 / len * sv
    vy := vy0 / len * sv
    vz := vz0 / len * sv
    life := life
    maxLife := life
    size := size * (0.8 + d.rsize * 0.4)
    cr := color.r
    cg := color.g
    cb := color.b }

/-- Loop of emit (source lines 83 to 128): iteration i stops the whole call
when the pool is full, and otherwise appends one spawned particle at slot
count and increments count. -/
noncomputable def emitLoop (pos : V3) (color : ColorRGB) (n : ℕ)
    (speed size spread : ℝ) (draws : ℕ → EmitDraws) (s : Pool) (i : ℕ) : Pool :=
  if i < n then
    if s.maxParticles ≤ s.count then s
    else
      emitLoop pos color n speed size spread draws
        { s with count := s.count + 1,
                 arr := Function.update s.arr s.count
                   (mkParticle pos color speed size spread (draws i)) }
        (i + 1)
  else s
termination_by n - i
decreasing_by omega

/-- emit (source lines 80 to 129). -/
noncomputable def emit (s : Pool) (pos : V3) (color : ColorRGB) (n : ℕ)
    (speed size spread : ℝ) (draws : ℕ → EmitDraws) : Pool :=
  emitLoop pos color n speed size spread draws s 0

/-- The physics part of one update iteration (source lines 169 to 174), applied
to a slot whose life has already been decremented: position integrates the
pre-gravity velocity, then gravity pulls vy down by 2 delta. -/
def physicsStep (delta : ℝ) (p : Particle) : Particle :=
  { p with px := p.px + p.vx * delta
           py := p.py + p.vy * delta
           pz := p.pz + p.vz * delta
           vy := p.vy - 2.0 * delta }

/-- The full effect of one surviving update iteration on a slot: life
decremented by delta, then the physics step. -/
def stepParticle (delta : ℝ) (p : Particle) : Particle :=
  physicsStep delta { p with life := p.life - delta }

/-- Loop of update (source lines 136 to 192).  At index i the slot's life is
decremented; a dead slot is overwritten by the last live slot (unless it is
the last), the count drops, and the same index is re-examined; a live slot
receives the physics step and the scan advances.  The rendering writes
(matrix, scale, rotation, color) read but never write particle state and are
omitted. -/
noncomputable def updateLoop (delta : ℝ) (arr : ℕ → Particle) (count i : ℕ) :
    (ℕ → Particle) × ℕ :=
  if h : i < count then
    let arr1 := Function.update arr i { arr i with life := (arr i).life - delta }
    if (arr1 i).life ≤ 0 then
      let last := count - 1
      let arr2 := if i < last then Function.update arr1 i (arr1 last) else arr1
      updateLoop delta arr2 (count - 1) i
    else
      updateLoop delta (Function.update arr1 i (physicsStep delta (arr1 i))) count (i + 1)
  else
    (arr, count)
termination_by count - i
decreasing_by all_goals omega

/-- update (source lines 131 to 197): run the scan from index 0 and publish
the surviving count. -/
noncomputable def update (s : Pool) (delta : ℝ) : Pool :=
  { s with arr := (updateLoop delta s.arr s.count 0).1
           count := (updateLoop delta s.arr s.count 0).2 }

/-- The particles stored in slots a, a+1, ..., a+n-1, in slot order. -/
def seg (arr : ℕ → Particle) (a n : ℕ) : List Particle :=
  (List.range n).map fun k => arr (a + k)

/-- The live particles of a pool: slots 0 to count-1. -/
def liveList (s : Pool) : List Particle :=
  seg s.arr 0 s.count

/-- Pool states reachable from a fresh pool by emit calls (with draws in the
range of Math.random) and update calls. -/
inductive Reachable (C : ℕ) : Pool → Prop where
  | fresh : Reachable C (freshPool C)
  | stepEmit (s : Pool) (pos : V3) (color : ColorRGB) (n : ℕ)
      (speed size spread : ℝ) (draws : ℕ → EmitDraws)
      (hs : Reachable C s) (hd : ∀ i, ValidDraw (draws i)) :
      Reachable C (emit s pos color n speed size spread draws)
  | stepUpdate (s : Pool) (delta : ℝ) (hs : Reachable C s) :
      Reachable C (update s delta)

/-- A concrete draw record with every Math.random result 0. -/
def sampleDraws : EmitDraws :=
  { jx := 0, jy := 0, jz := 0, rvx := 0, rvy := 0, rvz := 0, rs := 0, rl := 0, rsize := 0 }

/-- A concrete draw record with every Math.random result 0.5: the degenerate
case in which the sampled velocity vector is the zero vector. -/
def halfDraws : EmitDraws :=
  { jx := 0.5, jy := 0.5, jz := 0.5, rvx := 0.5, rvy := 0.5, rvz := 0.5,
    rs := 0.5, rl := 0.5, rsize := 0.5 }

/-- A concrete reachable pool holding one live particle. -/
noncomputable def samplePool : Pool :=
  emit (freshPool 1) ⟨0, 0, 0⟩ ⟨1, 1, 1⟩ 1 1 1 1 (fun _ => sampleDraws)

/-! ### Collision module lemmas and claim theorems -/

lemma allocAsteroids_capacity (s : WasmState) (n : ℤ) :
    (allocAsteroids s n).1.asteroidsCapacity = max s.asteroidsCapacity n := by
  unfold allocAsteroids
  split_ifs <;> simp <;> omega

lemma allocAsteroids_ret (s : WasmState) (n : ℤ) :
    (allocAsteroids s n).2 = (allocAsteroids s n).1.asteroidsPtr := by
  unfold allocAsteroids
  split_ifs <;> rfl

lemma allocAsteroids_fast (s : WasmState) (n : ℤ) (h : ¬ s.asteroidsCapacity < n) :
    allocAsteroids s n = (s, s.asteroidsPtr) := by
  unfold allocAsteroids
  rw [if_neg]
  omega

lemma allocSporeClouds_capacity (s : WasmState) (n : ℤ) :
    (allocSporeClouds s n).1.sporeCloudsCapacity = max s.sporeCloudsCapacity n := by
  unfold allocSporeClouds
  split_ifs <;> simp <;> omega

lemma allocSporeClouds_ret (s : WasmState) (n : ℤ) :
    (allocSporeClouds s n).2 = (allocSporeClouds s n).1.sporeCloudsPtr := by
  unfold allocSporeClouds
  split_ifs <;> rfl

lemma allocSporeClouds_fast (s : WasmState) (n : ℤ) (h : ¬ s.sporeCloudsCapacity < n) :
    allocSporeClouds s n = (s, s.sporeCloudsPtr) := by
  unfold allocSporeClouds
  rw [if_neg]
  omega

/-- Claim C7: after ensureCapacity with n, a second ensureCapacity with m ≤ n
takes the fast path: it returns the same base address, leaves the whole module
state untouched (no reallocation), and the capacity left by the first call is
at least n; moreover a single ensureCapacity call never decreases capacity,
for the asteroid and the spore cloud variants alike. -/
theorem ensureCapacity_monotone (s : WasmState) (n m : ℤ) (h : m ≤ n) :
    ((allocAsteroids (allocAsteroids s n).1 m).2 = (allocAsteroids s n).2 ∧
      (allocAsteroids (allocAsteroids s n).1 m).1 = (allocAsteroids s n).1 ∧
      n ≤ (allocAsteroids s n).1.asteroidsCapacity) ∧
    ((allocSporeClouds (allocSporeClouds s n).1 m).2 = (allocSporeClouds s n).2 ∧
      (allocSporeClouds (allocSporeClouds s n).1 m).1 = (allocSporeClouds s n).1 ∧
      n ≤ (allocSporeClouds s n).1.sporeCloudsCapacity) ∧
    (∀ t : WasmState, ∀ k : ℤ,
      t.asteroidsCapacity ≤ (allocAsteroids t k).1.asteroidsCapacity ∧
      t.sporeCloudsCapacity ≤ (allocSporeClouds t k).1.sporeCloudsCapacity) := by
  have hcapA := allocAsteroids_capacity s n
  have hcapS := allocSporeClouds_capacity s n
  have hfastA : allocAsteroids (allocAsteroids s n).1 m = ((allocAsteroids s n).1, (allocAsteroids s n).1.asteroidsPtr) :=
    allocAsteroids_fast _ _ (by omega)
  have hfastS : allocSporeClouds (allocSporeClouds s n).1 m = ((allocSporeClouds s n).1, (allocSporeClouds s n).1.sporeCloudsPtr) :=
    allocSporeClouds_fast _ _ (by omega)
  refine ⟨⟨?_, ?_, by omega⟩, ⟨?_, ?_, by omega⟩, ?_⟩
  · rw [hfastA, allocAsteroids_ret]
  · rw [hfastA]
  · rw [hfastS, allocSporeClouds_ret]
  · rw [hfastS]
  · intro t k
    constructor
    · rw [allocAsteroids_capacity]; omega
    · rw [allocSporeClouds_capacity]; omega

theorem ensureCapacity_monotone_witness :
    (allocAsteroids (allocAsteroids initialWasmState 5).1 3).2
      = (allocAsteroids initialWasmState 5).2 :=
  ((ensureCapacity_monotone initialWasmState 5 3 (by decide)).1).1

/-- Claim C6: with a zero record count, or before any buffer has ever been
allocated (base pointer still 0), both collision queries return -1 for every
memory contents and every query circle. -/
theorem testCollision_guard (mem : ℕ → ℚ) (s : WasmState)
    (playerX playerY playerZ playerRadius : ℚ) (objectCount : ℤ) :
    (objectCount = 0 ∨ s.asteroidsPtr = 0 →
      checkCollision mem s playerX playerY playerRadius objectCount = -1) ∧
    (objectCount = 0 ∨ s.sporeCloudsPtr = 0 →
      checkSporeCollision mem s playerX playerY playerZ playerRadius objectCount = -1) := by
  constructor
  · intro h
    unfold checkCollision
    rw [if_pos h]
  · intro h
    unfold checkSporeCollision
    rw [if_pos h]

theorem testCollision_guard_witness :
    checkCollision (fun _ => 0) initialWasmState 0 0 0 0 = -1 :=
  (testCollision_guard (fun _ => 0) initialWasmState 0 0 0 0 0).1 (Or.inl rfl)

lemma checkCollisionLoop_stop (mem : ℕ → ℚ) (playerX playerY playerRadius : ℚ)
    (n : ℤ) (ptr : ℕ) (i : ℕ) (h : ¬ (i : ℤ) < n) :
    checkCollisionLoop mem playerX playerY playerRadius n ptr i = -1 := by
  rw [checkCollisionLoop, dif_neg h]

lemma checkCollisionLoop_step (mem : ℕ → ℚ) (playerX playerY playerRadius : ℚ)
    (n : ℤ) (base : ℕ) (i : ℕ) (h : (i : ℤ) < n) :
    checkCollisionLoop mem playerX playerY playerRadius n (base + 12 * i) i =
      if asteroidHit mem base playerX playerY playerRadius i then (i : ℤ)
      else checkCollisionLoop mem playerX playerY playerRadius n (base + 12 * (i + 1)) (i + 1) := by
  rw [checkCollisionLoop, dif_pos h]
  have harith : base + 12 * i + 12 = base + 12 * (i + 1) := by ring
  dsimp only
  rw [harith]
  simp only [asteroidHit]

lemma checkCollisionLoop_spec (mem : ℕ → ℚ) (playerX playerY playerRadius : ℚ)
    (n : ℤ) (base : ℕ) :
    ∀ fuel i, n.toNat ≤ i + fuel →
      (checkCollisionLoop mem playerX playerY playerRadius n (base + 12 * i) i = -1 ∧
        ∀ j : ℕ, i ≤ j → (j : ℤ) < n → ¬ asteroidHit mem base playerX playerY playerRadius j) ∨
      (∃ j : ℕ, i ≤ j ∧ (j : ℤ) < n ∧
        checkCollisionLoop mem playerX playerY playerRadius n (base + 12 * i) i = (j : ℤ) ∧
        asteroidHit mem base playerX playerY playerRadius j ∧
        ∀ k : ℕ, i ≤ k → k < j → ¬ asteroidHit mem base playerX playerY playerRadius k) := by
  intro fuel
  induction fuel with
  | zero =>
    intro i hle
    left
    rw [checkCollisionLoop_stop mem playerX playerY playerRadius n _ i (by omega)]
    exact ⟨rfl, fun j hij hjn => by omega⟩
  | succ fuel ih =>
    intro i hle
    by_cases hi : (i : ℤ) < n
    · rw [checkCollisionLoop_step mem playerX playerY playerRadius n base i hi]
      by_cases hhit : asteroidHit mem base playerX playerY playerRadius i
      · right
        refine ⟨i, le_rfl, hi, ?_, hhit, fun k hik hki => by omega⟩
        rw [if_pos hhit]
      · rw [if_neg hhit]
        rcases ih (i + 1) (by omega) with ⟨hres, hnone⟩ | ⟨j, hij, hjn, hres, hhitj, hmin⟩
        · left
          refine ⟨hres, fun j hij hjn => ?_⟩
          rcases Nat.eq_or_lt_of_le hij with rfl | hlt
          · exact hhit
          · exact hnone j hlt hjn
        · right
          refine ⟨j, by omega, hjn, hres, hhitj, fun k hik hki => ?_⟩
          rcases Nat.eq_or_lt_of_le hik with rfl | hlt
          · exact hhit
          · exact hmin k hlt hki
    · left
      rw [checkCollisionLoop_stop mem playerX playerY playerRadius n _ i hi]
      exact ⟨rfl, fun j hij hjn => by omega⟩

/-- Claim C3: with at least one record and an allocated buffer, checkCollision
returns the lowest index in the valid range whose stored circle strictly
overlaps the query circle (squared center distance below the squared radius
sum), and -1 when no stored circle overlaps. -/
theorem checkCollision_first_match (mem : ℕ → ℚ) (s : WasmState)
    (playerX playerY playerRadius : ℚ) (objectCount : ℤ)
    (hn : 1 ≤ objectCount) (hp : s.asteroidsPtr ≠ 0) :
    (checkCollision mem s playerX playerY playerRadius objectCount = -1 ∧
      ∀ j : ℕ, (j : ℤ) < objectCount →
        ¬ asteroidHit mem s.asteroidsPtr playerX playerY playerRadius j) ∨
    (∃ j : ℕ, (j : ℤ) < objectCount ∧
      checkCollision mem s playerX playerY playerRadius objectCount = (j : ℤ) ∧
      asteroidHit mem s.asteroidsPtr playerX playerY playerRadius j ∧
      ∀ k : ℕ, k < j → ¬ asteroidHit mem s.asteroidsPtr playerX playerY playerRadius k) := by
  have hbase : s.asteroidsPtr + 12 * 0 = s.asteroidsPtr := by ring
  have hguard : ¬ (objectCount = 0 ∨ s.asteroidsPtr = 0) := by
    push_neg
    exact ⟨by omega, hp⟩
  have hspec := checkCollisionLoop_spec mem playerX playerY playerRadius objectCount
    s.asteroidsPtr objectCount.toNat 0 (by omega)
  rw [hbase] at hspec
  unfold checkCollision
  rw [if_neg hguard]
  rcases hspec with ⟨hres, hnone⟩ | ⟨j, _, hjn, hres, hhitj, hmin⟩
  · left
    exact ⟨hres, fun j hjn => hnone j (Nat.zero_le j) hjn⟩
  · right
    exact ⟨j, hjn, hres, hhitj, fun k hki => hmin k (Nat.zero_le k) hki⟩

theorem checkCollision_first_match_witness :
    checkCollision (fun _ => 0)
      { asteroidsPtr := 8, asteroidsCapacity := 1, sporeCloudsPtr := 0,
        sporeCloudsCapacity := 0, nextAlloc := 20 } 0 0 0 1 = -1 := by
  rcases checkCollision_first_match (fun _ => 0)
      { asteroidsPtr := 8, asteroidsCapacity := 1, sporeCloudsPtr := 0,
        sporeCloudsCapacity := 0, nextAlloc := 20 } 0 0 0 1 (by decide) (by decide) with
    ⟨hres, _⟩ | ⟨j, _, _, hhit, _⟩
  · exact hres
  · exact absurd hhit (by unfold asteroidHit; norm_num)

/-! ### Segment lemmas -/

lemma seg_length (arr : ℕ → Particle) (a n : ℕ) : (seg arr a n).length = n := by
  simp [seg]

lemma seg_zero (arr : ℕ → Particle) (a : ℕ) : seg arr a 0 = [] := rfl

lemma seg_one (arr : ℕ → Particle) (a : ℕ) : seg arr a 1 = [arr a] := by
  simp [seg, List.range_succ]

lemma seg_succ_front (arr : ℕ → Particle) (a n : ℕ) :
    seg arr a (n + 1) = arr a :: seg arr (a + 1) n := by
  unfold seg
  rw [List.range_succ_eq_map]
  simp only [List.map_cons, List.map_map, Nat.add_zero]
  congr 1
  apply List.map_congr_left
  intro k _
  simp only [Function.comp_apply]
  congr 1
  omega

lemma seg_succ_back (arr : ℕ → Particle) (a n : ℕ) :
    seg arr a (n + 1) = seg arr a n ++ [arr (a + n)] := by
  unfold seg
  rw [List.range_succ]
  simp

lemma seg_congr {arr arr2 : ℕ → Particle} (a n : ℕ)
    (h : ∀ k, a ≤ k → k < a + n → arr k = arr2 k) : seg arr a n = seg arr2 a n := by
  unfold seg
  apply List.map_congr_left
  intro k hk
  rw [List.mem_range] at hk
  exact h (a + k) (by omega) (by omega)

lemma seg_update_out (arr : ℕ → Particle) (j : ℕ) (p : Particle) (a n : ℕ)
    (h : j < a ∨ a + n ≤ j) :
    seg (Function.update arr j p) a n = seg arr a n := by
  apply seg_congr
  intro k hk1 hk2
  apply Function.update_noteq
  omega

lemma seg_mem_iff (arr : ℕ → Particle) (a n : ℕ) (p : Particle) :
    p ∈ seg arr a n ↔ ∃ k, k < n ∧ p = arr (a + k) := by
  unfold seg
  simp only [List.mem_map, List.mem_range]
  constructor
  · rintro ⟨k, hk, rfl⟩
    exact ⟨k, hk, rfl⟩
  · rintro ⟨k, hk, rfl⟩
    exact ⟨k, hk, rfl⟩

/-! ### emit lemmas -/

lemma mkParticle_life (pos : V3) (color : ColorRGB) (speed size spread : ℝ)
    (d : EmitDraws) : (mkParticle pos color speed size spread d).life = 0.5 + d.rl * 0.5 := rfl

lemma emitLoop_stop {pos : V3} {color : ColorRGB} {n : ℕ} {speed size spread : ℝ}
    {draws : ℕ → EmitDraws} {s : Pool} {i : ℕ} (h : ¬ i < n) :
    emitLoop pos color n speed size spread draws s i = s := by
  rw [emitLoop, if_neg h]

lemma emitLoop_full {pos : V3} {color : ColorRGB} {n : ℕ} {speed size spread : ℝ}
    {draws : ℕ → EmitDraws} {s : Pool} {i : ℕ} (h : i < n)
    (hf : s.maxParticles ≤ s.count) :
    emitLoop pos color n speed size spread draws s i = s := by
  rw [emitLoop, if_pos h, if_pos hf]

lemma emitLoop_step {pos : V3} {color : ColorRGB} {n : ℕ} {speed size spread : ℝ}
    {draws : ℕ → EmitDraws} {s : Pool} {i : ℕ} (h : i < n)
    (hf : ¬ s.maxParticles ≤ s.count) :
    emitLoop pos color n speed size spread draws s i =
      emitLoop pos color n speed size spread draws
        { s with count := s.count + 1,
                 arr := Function.update s.arr s.count
                   (mkParticle pos color speed size spread (draws i)) }
        (i + 1) := by
  rw [emitLoop]
  rw [if_pos h, if_neg hf]

lemma emitLoop_max (pos : V3) (color : ColorRGB) (n : ℕ) (speed size spread : ℝ)
    (draws : ℕ → EmitDraws) :
    ∀ fuel (s : Pool) (i : ℕ), n ≤ i + fuel →
      (emitLoop pos color n speed size spread draws s i).maxParticles = s.maxParticles := by
  intro fuel
  induction fuel with
  | zero =>
    intro s i hle
    rw [emitLoop_stop (by omega)]
  | succ fuel ih =>
    intro s i hle
    by_cases hi : i < n
    · by_cases hf : s.maxParticles ≤ s.count
      · rw [emitLoop_full hi hf]
      · rw [emitLoop_step hi hf, ih _ (i + 1) (by omega)]
    · rw [emitLoop_stop hi]

lemma emitLoop_count (pos : V3) (color : ColorRGB) (n : ℕ) (speed size spread : ℝ)
    (draws : ℕ → EmitDraws) :
    ∀ fuel (s : Pool) (i : ℕ), n ≤ i + fuel → s.count ≤ s.maxParticles →
      (emitLoop pos color n speed size spread draws s i).count
        = min (s.count + (n - i)) s.maxParticles := by
  intro fuel
  induction fuel with
  | zero =>
    intro s i hle hcm
    rw [emitLoop_stop (by omega)]
    omega
  | succ fuel ih =>
    intro s i hle hcm
    by_cases hi : i < n
    · by_cases hf : s.maxParticles ≤ s.count
      · rw [emitLoop_full hi hf]
        omega
      · rw [emitLoop_step hi hf, ih _ (i + 1) (by omega) (by dsimp only; omega)]
        dsimp only
        omega
    · rw [emitLoop_stop hi]
      omega

lemma emitLoop_frame (pos : V3) (color : ColorRGB) (n : ℕ) (speed size spread : ℝ)
    (draws : ℕ → EmitDraws) :
    ∀ fuel (s : Pool) (i : ℕ), n ≤ i + fuel →
      (∀ j, j < s.count →
        (emitLoop pos color n speed size spread draws s i).arr j = s.arr j) ∧
      s.count ≤ (emitLoop pos color n speed size spread draws s i).count := by
  intro fuel
  induction fuel with
  | zero =>
    intro s i hle
    rw [emitLoop_stop (by omega)]
    exact ⟨fun j _ => rfl, le_rfl⟩
  | succ fuel ih =>
    intro s i hle
    by_cases hi : i < n
    · by_cases hf : s.maxParticles ≤ s.count
      · rw [emitLoop_full hi hf]
        exact ⟨fun j _ => rfl, le_rfl⟩
      · rw [emitLoop_step hi hf]
        obtain ⟨harr, hcnt⟩ := ih _ (i + 1) (by omega)
        constructor
        · intro j hj
          rw [harr j (by dsimp only; omega)]
          dsimp only
          exact Function.update_noteq (by omega) _ _
        · refine le_trans ?_ hcnt
          dsimp only
          omega
    · rw [emitLoop_stop hi]
      exact ⟨fun j _ => rfl, le_rfl⟩

lemma emitLoop_live (pos : V3) (color : ColorRGB) (n : ℕ) (speed size spread : ℝ)
    (draws : ℕ → EmitDraws) (hd : ∀ j, 0 ≤ (draws j).rl) :
    ∀ fuel (s : Pool) (i : ℕ), n ≤ i + fuel →
      (∀ j, j < s.count → 0 < (s.arr j).life) →
      ∀ j, j < (emitLoop pos color n speed size spread draws s i).count →
        0 < ((emitLoop pos color n speed size spread draws s i).arr j).life := by
  intro fuel
  induction fuel with
  | zero =>
    intro s i hle hlive
    rw [emitLoop_stop (by omega)]
    exact hlive
  | succ fuel ih =>
    intro s i hle hlive
    by_cases hi : i < n
    · by_cases hf : s.maxParticles ≤ s.count
      · rw [emitLoop_full hi hf]
        exact hlive
      · rw [emitLoop_step hi hf]
        apply ih _ (i + 1) (by omega)
        intro j hj
        dsimp only at hj ⊢
        rcases Nat.lt_succ_iff_lt_or_eq.mp hj with hlt | rfl
        · rw [Function.update_noteq (by omega)]
          exact hlive j hlt
        · rw [Function.update_same, mkParticle_life]
          have := hd i
          nlinarith [hd i]
    · rw [emitLoop_stop hi]
      exact hlive

/-! ### update lemmas -/

lemma stepParticle_life (delta : ℝ) (p : Particle) :
    (stepParticle delta p).life = p.life - delta := rfl

lemma updateLoop_stop {delta : ℝ} {arr : ℕ → Particle} {count i : ℕ}
    (h : ¬ i < count) : updateLoop delta arr count i = (arr, count) := by
  rw [updateLoop, dif_neg h]

lemma updateLoop_dead_swap {delta : ℝ} {arr : ℕ → Particle} {count i : ℕ}
    (hi : i < count) (hd : (arr i).life - delta ≤ 0) (hlast : i < count - 1) :
    updateLoop delta arr count i =
      updateLoop delta (Function.update arr i (arr (count - 1))) (count - 1) i := by
  rw [updateLoop, dif_pos hi]
  dsimp only
  rw [if_pos (by rw [Function.update_same]; exact hd)]
  rw [if_pos hlast]
  rw [Function.update_noteq (by omega : count - 1 ≠ i), Function.update_idem]

lemma updateLoop_dead_last {delta : ℝ} {arr : ℕ → Particle} {count i : ℕ}
    (hi : i < count) (hd : (arr i).life - delta ≤ 0) (hlast : ¬ i < count - 1) :
    updateLoop delta arr count i =
      (Function.update arr i { arr i with life := (arr i).life - delta }, count - 1) := by
  rw [updateLoop, dif_pos hi]
  dsimp only
  rw [if_pos (by rw [Function.update_same]; exact hd)]
  rw [if_neg hlast]
  rw [updateLoop_stop (by omega)]

lemma updateLoop_alive {delta : ℝ} {arr : ℕ → Particle} {count i : ℕ}
    (hi : i < count) (ha : ¬ (arr i).life - delta ≤ 0) :
    updateLoop delta arr count i =
      updateLoop delta (Function.update arr i (stepParticle delta (arr i))) count (i + 1) := by
  rw [updateLoop, dif_pos hi]
  dsimp only
  rw [if_neg (by rw [Function.update_same]; exact ha)]
  rw [Function.update_same, Function.update_idem]
  rfl

/-- Scan invariant: the final live segment is, as a multiset, the already
processed prefix plus the stepped survivors of the pending segment. -/
lemma updateLoop_multiset (delta : ℝ) :
    ∀ fuel (arr : ℕ → Particle) (count i : ℕ), count ≤ i + fuel → i ≤ count →
      ((seg (updateLoop delta arr count i).1 0 (updateLoop delta arr count i).2 : Multiset Particle)
        = (seg arr 0 i : Multiset Particle)
          + Multiset.map (stepParticle delta)
              (Multiset.filter (fun p => delta < p.life)
                (seg arr i (count - i) : Multiset Particle))) := by
  intro fuel
  induction fuel with
  | zero =>
    intro arr count i hf hic
    have hieq : i = count := by omega
    subst hieq
    rw [updateLoop_stop (by omega)]
    simp [seg_zero]
  | succ fuel ih =>
    intro arr count i hf hic
    by_cases hi : i < count
    · by_cases hd : (arr i).life - delta ≤ 0
      · have hdead : ¬ delta < (arr i).life := by
          intro hc
          linarith
        by_cases hlast : i < count - 1
        · rw [updateLoop_dead_swap hi hd hlast]
          rw [ih (Function.update arr i (arr (count - 1))) (count - 1) i (by omega) (by omega)]
          rw [seg_update_out _ _ _ _ _ (Or.inr (by omega))]
          congr 1
          obtain ⟨k, hk⟩ : ∃ k, count - i = k + 1 + 1 := ⟨count - i - 2, by omega⟩
          have hk1 : count - 1 - i = k + 1 := by omega
          rw [hk1, seg_succ_front, Function.update_same,
            seg_update_out _ _ _ _ _ (Or.inl (by omega))]
          rw [hk, seg_succ_front, seg_succ_back]
          have hidx : i + 1 + k = count - 1 := by omega
          rw [hidx]
          rw [← Multiset.cons_coe, ← Multiset.cons_coe, ← Multiset.coe_add]
          rw [Multiset.filter_cons, Multiset.filter_cons, Multiset.filter_add]
          rw [if_neg hdead]
          rw [Multiset.coe_singleton, Multiset.filter_singleton]
          simp only [zero_add, Multiset.empty_eq_zero]
          rw [add_comm]
        · rw [updateLoop_dead_last hi hd hlast]
          have hieq : count - 1 = i := by omega
          have hone : count - i = 1 := by omega
          dsimp only
          rw [hieq, seg_update_out _ _ _ _ _ (Or.inr (by omega))]
          rw [hone, seg_one]
          rw [Multiset.coe_singleton, Multiset.filter_singleton, if_neg hdead]
          simp
      · rw [updateLoop_alive hi hd]
        rw [ih (Function.update arr i (stepParticle delta (arr i))) count (i + 1)
          (by omega) (by omega)]
        have halive : delta < (arr i).life := by
          have hgt := not_le.mp hd
          linarith
        obtain ⟨k, hk⟩ : ∃ k, count - i = k + 1 := ⟨count - i - 1, by omega⟩
        have hpend : count - (i + 1) = k := by omega
        rw [seg_succ_back, Nat.zero_add, Function.update_same,
          seg_update_out _ _ _ _ _ (Or.inr (by omega))]
        rw [hpend, seg_update_out _ _ _ _ _ (Or.inl (by omega))]
        rw [hk, seg_succ_front]
        rw [← Multiset.cons_coe, ← Multiset.coe_add]
        rw [Multiset.filter_cons, if_pos halive]
        rw [Multiset.map_add, Multiset.map_singleton, Multiset.coe_singleton]
        rw [add_assoc]
    · rw [updateLoop_stop hi]
      have hieq : i = count := by omega
      subst hieq
      simp [seg_zero]

/-- The observable effect of update on the live particles: the live multiset
afterwards is the image under the step function of those entry particles whose
life exceeds delta. -/
lemma update_multiset (s : Pool) (delta : ℝ) :
    (liveList (update s delta) : Multiset Particle)
      = Multiset.map (stepParticle delta)
          (Multiset.filter (fun p => delta < p.life)
            (liveList s : Multiset Particle)) := by
  have h := updateLoop_multiset delta s.count s.arr s.count 0 (by omega) (by omega)
  simpa [liveList, update, seg_zero, Nat.sub_zero] using h

lemma liveList_card (t : Pool) :
    Multiset.card (liveList t : Multiset Particle) = t.count := by
  rw [Multiset.coe_card, liveList, seg_length]

lemma update_maxParticles (s : Pool) (delta : ℝ) :
    (update s delta).maxParticles = s.maxParticles := rfl

lemma update_count_le (s : Pool) (delta : ℝ) : (update s delta).count ≤ s.count := by
  have h := congrArg Multiset.card (update_multiset s delta)
  rw [liveList_card, Multiset.card_map] at h
  have h2 : Multiset.card (Multiset.filter (fun p => delta < p.life)
        (liveList s : Multiset Particle))
      ≤ Multiset.card (liveList s : Multiset Particle) :=
    Multiset.card_le_card (Multiset.filter_le _ _)
  rw [liveList_card] at h2
  omega

/-- Every live slot after an update holds a particle with positive remaining
life, for every pool state and every delta. -/
lemma update_live_pos (s : Pool) (delta : ℝ) :
    ∀ i, i < (update s delta).count → 0 < ((update s delta).arr i).life := by
  intro i hi
  have hmem : (update s delta).arr i ∈ (liveList (update s delta) : Multiset Particle) := by
    rw [Multiset.mem_coe, liveList]
    exact (seg_mem_iff _ _ _ _).mpr ⟨i, hi, by rw [Nat.zero_add]⟩
  rw [update_multiset] at hmem
  obtain ⟨q, hq, heq⟩ := Multiset.mem_map.mp hmem
  obtain ⟨_, hqpred⟩ := Multiset.mem_filter.mp hq
  rw [← heq, stepParticle_life]
  linarith

lemma emit_maxParticles (s : Pool) (pos : V3) (color : ColorRGB) (n : ℕ)
    (speed size spread : ℝ) (draws : ℕ → EmitDraws) :
    (emit s pos color n speed size spread draws).maxParticles = s.maxParticles :=
  emitLoop_max pos color n speed size spread draws n s 0 (by omega)

lemma emit_count_min (s : Pool) (pos : V3) (color : ColorRGB) (n : ℕ)
    (speed size spread : ℝ) (draws : ℕ → EmitDraws)
    (h : s.count ≤ s.maxParticles) :
    (emit s pos color n speed size spread draws).count
      = min (s.count + n) s.maxParticles := by
  have hc := emitLoop_count pos color n speed size spread draws n s 0 (by omega) h
  simpa [emit] using hc

lemma reachable_invariant {C : ℕ} {s : Pool} (hs : Reachable C s) :
    s.maxParticles = C ∧ s.count ≤ C := by
  induction hs with
  | fresh => exact ⟨rfl, Nat.zero_le C⟩
  | stepEmit s pos color n speed size spread draws hr hd ih =>
    obtain ⟨hm, hc⟩ := ih
    have hcnt := emit_count_min s pos color n speed size spread draws (by omega)
    refine ⟨by rw [emit_maxParticles, hm], ?_⟩
    rw [hcnt, hm]
    omega
  | stepUpdate s delta hr ih =>
    obtain ⟨hm, hc⟩ := ih
    have := update_count_le s delta
    exact ⟨by rw [update_maxParticles, hm], by omega⟩

/-- Every reachable state keeps strictly positive remaining life in each live
slot. -/
lemma reachable_live {C : ℕ} {s : Pool} (hs : Reachable C s) :
    ∀ j, j < s.count → 0 < (s.arr j).life := by
  induction hs with
  | fresh => exact fun j hj => absurd hj (Nat.not_lt_zero j)
  | stepEmit s pos color n speed size spread draws hr hd ih =>
    exact emitLoop_live pos color n speed size spread draws
      (fun j => ((hd j).2.2.2.2.2.2.2.1).1) n s 0 (by omega) ih
  | stepUpdate s delta hr ih =>
    exact update_live_pos s delta

lemma update_zero_count {s : Pool}
    (hlive : ∀ j, j < s.count → 0 < (s.arr j).life) :
    (update s 0).count = s.count := by
  have h := congrArg Multiset.card (update_multiset s 0)
  rw [liveList_card, Multiset.card_map] at h
  rw [Multiset.filter_eq_self.mpr ?hall, liveList_card] at h
  · exact h
  case hall =>
    intro p hp
    rw [Multiset.mem_coe, liveList] at hp
    obtain ⟨k, hk, hkeq⟩ := (seg_mem_iff _ _ _ _).mp hp
    rw [hkeq]
    exact hlive (0 + k) (by omega)

lemma reachable_iterate {C : ℕ} {s : Pool} (hs : Reachable C s) (k : ℕ) :
    Reachable C ((fun t => update t 0)^[k] s) := by
  induction k with
  | zero => exact hs
  | succ k ih =>
    rw [Function.iterate_succ_apply']
    exact Reachable.stepUpdate _ 0 ih

lemma emit_one (s : Pool) (pos : V3) (color : ColorRGB)
    (speed size spread : ℝ) (draws : ℕ → EmitDraws)
    (hcap : s.count < s.maxParticles) :
    (emit s pos color 1 speed size spread draws).arr s.count
      = mkParticle pos color speed size spread (draws 0) := by
  unfold emit
  rw [emitLoop_step (by omega) (by omega)]
  rw [emitLoop_stop (by omega)]
  dsimp only
  rw [Function.update_same]

lemma sampleDraws_valid : ValidDraw sampleDraws :=
  ⟨⟨le_rfl, zero_lt_one⟩, ⟨le_rfl, zero_lt_one⟩, ⟨le_rfl, zero_lt_one⟩,
   ⟨le_rfl, zero_lt_one⟩, ⟨le_rfl, zero_lt_one⟩, ⟨le_rfl, zero_lt_one⟩,
   ⟨le_rfl, zero_lt_one⟩, ⟨le_rfl, zero_lt_one⟩, ⟨le_rfl, zero_lt_one⟩⟩

lemma samplePool_reachable : Reachable 1 samplePool :=
  Reachable.stepEmit (freshPool 1) ⟨0, 0, 0⟩ ⟨1, 1, 1⟩ 1 1 1 1 (fun _ => sampleDraws)
    Reachable.fresh (fun _ => sampleDraws_valid)

lemma samplePool_count : samplePool.count = 1 := by
  have h := emit_count_min (freshPool 1) ⟨0, 0, 0⟩ ⟨1, 1, 1⟩ 1 1 1 1
    (fun _ => sampleDraws) (Nat.zero_le _)
  simpa [samplePool, freshPool] using h

lemma samplePool_arr_zero :
    samplePool.arr 0 = mkParticle ⟨0, 0, 0⟩ ⟨1, 1, 1⟩ 1 1 1 sampleDraws := by
  have h := emit_one (freshPool 1) ⟨0, 0, 0⟩ ⟨1, 1, 1⟩ 1 1 1 (fun _ => sampleDraws)
    (Nat.zero_lt_one)
  exact h

lemma update_samplePool_count : (update samplePool (1 / 4)).count = 1 := by
  have h := congrArg Multiset.card (update_multiset samplePool (1 / 4))
  rw [liveList_card, Multiset.card_map] at h
  have hl : liveList samplePool = [samplePool.arr 0] := by
    rw [liveList, samplePool_count, seg_one]
  rw [hl, Multiset.coe_singleton, Multiset.filter_singleton, if_pos ?hp] at h
  · simpa using h
  case hp =>
    rw [samplePool_arr_zero, mkParticle_life]
    norm_num [sampleDraws]

/-! ### Particle pool claim theorems -/

/-- Claim C1: one update call decrements every entry particle's life by delta,
drops exactly those whose decremented life is not positive, and advances every
survivor by its velocity and gravity while leaving its other attributes
unchanged — as a multiset (slot order is changed only by the swap-remove
compaction), the live particles after the call are exactly the stepped
survivors of the entry particles. -/
theorem update_live_multiset (s : Pool) (delta : ℝ) (_hdelta : 0 ≤ delta) :
    (liveList (update s delta) : Multiset Particle)
      = Multiset.map (stepParticle delta)
          (Multiset.filter (fun p => delta < p.life)
            (liveList s : Multiset Particle)) :=
  update_multiset s delta

theorem update_live_multiset_witness :
    (liveList (update (freshPool 3) 0) : Multiset Particle)
      = Multiset.map (stepParticle 0)
          (Multiset.filter (fun p => (0 : ℝ) < p.life)
            (liveList (freshPool 3) : Multiset Particle)) :=
  update_live_multiset (freshPool 3) 0 le_rfl

/-- Claim C2: an emit call for n particles on a pool with a free slots creates
exactly min n a particles: if n exceeds the free capacity the pool fills to
exactly its capacity, silently dropping the excess, and otherwise the count
grows by exactly n. -/
theorem emit_saturation (s : Pool) (pos : V3) (color : ColorRGB) (n : ℕ)
    (speed size spread : ℝ) (draws : ℕ → EmitDraws)
    (h : s.count ≤ s.maxParticles) :
    (s.maxParticles - s.count < n →
      (emit s pos color n speed size spread draws).count = s.maxParticles) ∧
    (n ≤ s.maxParticles - s.count →
      (emit s pos color n speed size spread draws).count = s.count + n) := by
  have hc := emit_count_min s pos color n speed size spread draws h
  constructor <;> intro hn <;> rw [hc] <;> omega

theorem emit_saturation_witness :
    (emit (freshPool 2) ⟨0, 0, 0⟩ ⟨1, 1, 1⟩ 5 1 1 0 (fun _ => sampleDraws)).count
      = (freshPool 2).maxParticles :=
  (emit_saturation (freshPool 2) ⟨0, 0, 0⟩ ⟨1, 1, 1⟩ 5 1 1 0 (fun _ => sampleDraws)
    (Nat.zero_le _)).1 (by decide)

/-- Claim C4: along every finite sequence of emit and update calls from a
fresh pool of capacity C, the live count never exceeds C. -/
theorem pool_capacity_invariant {C : ℕ} {s : Pool} (hs : Reachable C s) :
    s.count ≤ C :=
  (reachable_invariant hs).2

theorem pool_capacity_invariant_witness : (freshPool 3).count ≤ 3 :=
  pool_capacity_invariant Reachable.fresh

/-- Claim C5: after an update call on a reachable pool state, the live
particles occupy exactly the slots below the published count, with no holes:
every such slot holds a particle with strictly positive remaining life. -/
theorem update_density {C : ℕ} {s : Pool} (_hs : Reachable C s) (delta : ℝ) :
    ∀ i, i < (update s delta).count → 0 < ((update s delta).arr i).life :=
  update_live_pos s delta

theorem update_density_witness :
    0 < ((update samplePool (1 / 4)).arr 0).life :=
  update_density samplePool_reachable (1 / 4) 0
    (by rw [update_samplePool_count]; exact Nat.zero_lt_one)

/-- Claim C9: update with delta 0, repeated any number of times on a reachable
pool state, leaves the live count unchanged: every reachable live particle has
strictly positive remaining life, so none dies under a zero decrement. -/
theorem update_zero_iterate {C : ℕ} {s : Pool} (hs : Reachable C s) (k : ℕ) :
    ((fun t => update t 0)^[k] s).count = s.count := by
  induction k with
  | zero => rfl
  | succ k ih =>
    rw [Function.iterate_succ_apply']
    rw [update_zero_count (reachable_live (reachable_iterate hs k))]
    exact ih

theorem update_zero_iterate_witness :
    ((fun t => update t 0)^[3] samplePool).count = samplePool.count :=
  update_zero_iterate samplePool_reachable 3

/-- Claim C10: emit only appends: every slot below the live count at entry is
left untouched (all twelve attributes of every already live particle are
unchanged), and the live count never decreases across the call. -/
theorem emit_frame (s : Pool) (pos : V3) (color : ColorRGB) (n : ℕ)
    (speed size spread : ℝ) (draws : ℕ → EmitDraws) :
    (∀ j, j < s.count →
      (emit s pos color n speed size spread draws).arr j = s.arr j) ∧
    s.count ≤ (emit s pos color n speed size spread draws).count :=
  emitLoop_frame pos color n speed size spread draws n s 0 (by omega)

/-! ### Claim C8: spawn velocity magnitude -/

lemma mkParticle_vx (pos : V3) (color : ColorRGB) (speed size spread : ℝ)
    (d : EmitDraws) :
    (mkParticle pos color speed size spread d).vx =
      (d.rvx - 0.5) /
        (if Real.sqrt ((d.rvx - 0.5) * (d.rvx - 0.5) + (d.rvy - 0.5) * (d.rvy - 0.5) +
            (d.rvz - 0.5) * (d.rvz - 0.5)) = 0 then 1
          else Real.sqrt ((d.rvx - 0.5) * (d.rvx - 0.5) + (d.rvy - 0.5) * (d.rvy - 0.5) +
            (d.rvz - 0.5) * (d.rvz - 0.5)))
        * (speed * (0.5 + d.rs * 0.5)) := rfl

lemma mkParticle_vy (pos : V3) (color : ColorRGB) (speed size spread : ℝ)
    (d : EmitDraws) :
    (mkParticle pos color speed size spread d).vy =
      (d.rvy - 0.5) /
        (if Real.sqrt ((d.rvx - 0.5) * (d.rvx - 0.5) + (d.rvy - 0.5) * (d.rvy - 0.5) +
            (d.rvz - 0.5) * (d.rvz - 0.5)) = 0 then 1
          else Real.sqrt ((d.rvx - 0.5) * (d.rvx - 0.5) + (d.rvy - 0.5) * (d.rvy - 0.5) +
            (d.rvz - 0.5) * (d.rvz - 0.5)))
        * (speed * (0.5 + d.rs * 0.5)) := rfl

lemma mkParticle_vz (pos : V3) (color : ColorRGB) (speed size spread : ℝ)
    (d : EmitDraws) :
    (mkParticle pos color speed size spread d).vz =
      (d.rvz - 0.5) /
        (if Real.sqrt ((d.rvx - 0.5) * (d.rvx - 0.5) + (d.rvy - 0.5) * (d.rvy - 0.5) +
            (d.rvz - 0.5) * (d.rvz - 0.5)) = 0 then 1
          else Real.sqrt ((d.rvx - 0.5) * (d.rvx - 0.5) + (d.rvy - 0.5) * (d.rvy - 0.5) +
            (d.rvz - 0.5) * (d.rvz - 0.5)))
        * (speed * (0.5 + d.rs * 0.5)) := rfl

lemma norm_of_scaled (a b c sv : ℝ) (hq : a * a + b * b + c * c ≠ 0) (hsv : 0 ≤ sv) :
    Real.sqrt ((a / Real.sqrt (a * a + b * b + c * c) * sv) ^ 2 +
        (b / Real.sqrt (a * a + b * b + c * c) * sv) ^ 2 +
        (c / Real.sqrt (a * a + b * b + c * c) * sv) ^ 2) = sv := by
  have hqpos : 0 < a * a + b * b + c * c :=
    lt_of_le_of_ne
      (add_nonneg (add_nonneg (mul_self_nonneg a) (mul_self_nonneg b)) (mul_self_nonneg c))
      (Ne.symm hq)
  have hs : Real.sqrt (a * a + b * b + c * c) ≠ 0 := by
    rw [Real.sqrt_ne_zero']
    exact hqpos
  have hsq : Real.sqrt (a * a + b * b + c * c) ^ 2 = a * a + b * b + c * c :=
    Real.sq_sqrt hqpos.le
  have hkey : (a / Real.sqrt (a * a + b * b + c * c) * sv) ^ 2 +
      (b / Real.sqrt (a * a + b * b + c * c) * sv) ^ 2 +
      (c / Real.sqrt (a * a + b * b + c * c) * sv) ^ 2 = sv ^ 2 := by
    have h1 : (a / Real.sqrt (a * a + b * b + c * c) * sv) ^ 2 +
        (b / Real.sqrt (a * a + b * b + c * c) * sv) ^ 2 +
        (c / Real.sqrt (a * a + b * b + c * c) * sv) ^ 2
        = (a * a + b * b + c * c) / Real.sqrt (a * a + b * b + c * c) ^ 2 * sv ^ 2 := by
      ring
    rw [h1, hsq, div_self hq, one_mul]
  rw [hkey, Real.sqrt_sq hsv]

/-- Claim C8, corrected.  The claim asserts that the stored velocity always
has magnitude speed times a factor in the half-open interval from 0.5 to 1,
with a fixed-axis fallback in the degenerate case; the code instead guards the
zero-length case by dividing by 1, which stores the zero velocity.  Amended:
when the sampled random vector is nonzero, the stored velocity has magnitude
exactly speed times (0.5 plus half the speed draw); when the sampled vector is
the zero vector (every velocity draw equal to 0.5), the stored velocity is the
zero vector. -/
theorem emit_velocity_magnitude (s : Pool) (pos : V3) (color : ColorRGB)
    (speed size spread : ℝ) (draws : ℕ → EmitDraws)
    (hcap : s.count < s.maxParticles) (hsp : 0 ≤ speed) (hrs : 0 ≤ (draws 0).rs) :
    (¬ ((draws 0).rvx = 0.5 ∧ (draws 0).rvy = 0.5 ∧ (draws 0).rvz = 0.5) →
      Real.sqrt
        (((emit s pos color 1 speed size spread draws).arr s.count).vx ^ 2 +
          ((emit s pos color 1 speed size spread draws).arr s.count).vy ^ 2 +
          ((emit s pos color 1 speed size spread draws).arr s.count).vz ^ 2)
        = speed * (0.5 + (draws 0).rs * 0.5)) ∧
    (((draws 0).rvx = 0.5 ∧ (draws 0).rvy = 0.5 ∧ (draws 0).rvz = 0.5) →
      ((emit s pos color 1 speed size spread draws).arr s.count).vx = 0 ∧
      ((emit s pos color 1 speed size spread draws).arr s.count).vy = 0 ∧
      ((emit s pos color 1 speed size spread draws).arr s.count).vz = 0) := by
  rw [emit_one s pos color speed size spread draws hcap]
  rw [mkParticle_vx, mkParticle_vy, mkParticle_vz]
  constructor
  · intro hnz
    have hq : ((draws 0).rvx - 0.5) * ((draws 0).rvx - 0.5) +
        ((draws 0).rvy - 0.5) * ((draws 0).rvy - 0.5) +
        ((draws 0).rvz - 0.5) * ((draws 0).rvz - 0.5) ≠ 0 := by
      intro h0
      apply hnz
      have h1 : ((draws 0).rvx - 0.5) * ((draws 0).rvx - 0.5) = 0 := by
        nlinarith [mul_self_nonneg ((draws 0).rvx - 0.5),
          mul_self_nonneg ((draws 0).rvy - 0.5), mul_self_nonneg ((draws 0).rvz - 0.5)]
      have h2 : ((draws 0).rvy - 0.5) * ((draws 0).rvy - 0.5) = 0 := by
        nlinarith [mul_self_nonneg ((draws 0).rvx - 0.5),
          mul_self_nonneg ((draws 0).rvy - 0.5), mul_self_nonneg ((draws 0).rvz - 0.5)]
      have h3 : ((draws 0).rvz - 0.5) * ((draws 0).rvz - 0.5) = 0 := by
        nlinarith [mul_self_nonneg ((draws 0).rvx - 0.5),
          mul_self_nonneg ((draws 0).rvy - 0.5), mul_self_nonneg ((draws 0).rvz - 0.5)]
      have e1 := mul_self_eq_zero.mp h1
      have e2 := mul_self_eq_zero.mp h2
      have e3 := mul_self_eq_zero.mp h3
      exact ⟨by linarith, by linarith, by linarith⟩
    have hs : Real.sqrt (((draws 0).rvx - 0.5) * ((draws 0).rvx - 0.5) +
        ((draws 0).rvy - 0.5) * ((draws 0).rvy - 0.5) +
        ((draws 0).rvz - 0.5) * ((draws 0).rvz - 0.5)) ≠ 0 := by
      rw [Real.sqrt_ne_zero']
      exact lt_of_le_of_ne
        (add_nonneg (add_nonneg (mul_self_nonneg _) (mul_self_nonneg _)) (mul_self_nonneg _))
        (Ne.symm hq)
    rw [if_neg hs]
    exact norm_of_scaled _ _ _ _ hq (mul_nonneg hsp (by linarith))
  · intro ⟨h1, h2, h3⟩
    rw [h1, h2, h3]
    norm_num

theorem emit_velocity_magnitude_witness :
    Real.sqrt ((samplePool.arr 0).vx ^ 2 + (samplePool.arr 0).vy ^ 2 +
        (samplePool.arr 0).vz ^ 2)
      = 1 * (0.5 + sampleDraws.rs * 0.5) :=
  (emit_velocity_magnitude (freshPool 1) ⟨0, 0, 0⟩ ⟨1, 1, 1⟩ 1 1 1
      (fun _ => sampleDraws) Nat.zero_lt_one zero_le_one le_rfl).1
    (by norm_num [sampleDraws])

/-- Claim C8 counterexample: with every velocity draw exactly 0.5 the sampled
random vector is the zero vector and the code stores the zero velocity, whose
magnitude 0 is below speed times 0.5 at speed 1 — so the claimed lower bound
on the stored velocity magnitude fails, and no fixed-axis fallback exists. -/
theorem emit_velocity_counterexample :
    ((emit (freshPool 1) ⟨0, 0, 0⟩ ⟨1, 1, 1⟩ 1 1 1 1 (fun _ => halfDraws)).arr 0).vx = 0 ∧
    ((emit (freshPool 1) ⟨0, 0, 0⟩ ⟨1, 1, 1⟩ 1 1 1 1 (fun _ => halfDraws)).arr 0).vy = 0 ∧
    ((emit (freshPool 1) ⟨0, 0, 0⟩ ⟨1, 1, 1⟩ 1 1 1 1 (fun _ => halfDraws)).arr 0).vz = 0 ∧
    ¬ ((1 : ℝ) * 0.5 ≤
      Real.sqrt
        (((emit (freshPool 1) ⟨0, 0, 0⟩ ⟨1, 1, 1⟩ 1 1 1 1 (fun _ => halfDraws)).arr 0).vx ^ 2 +
          ((emit (freshPool 1) ⟨0, 0, 0⟩ ⟨1, 1, 1⟩ 1 1 1 1 (fun _ => halfDraws)).arr 0).vy ^ 2 +
          ((emit (freshPool 1) ⟨0, 0, 0⟩ ⟨1, 1, 1⟩ 1 1 1 1 (fun _ => halfDraws)).arr 0).vz ^ 2)) := by
  have h : ((emit (freshPool 1) ⟨0, 0, 0⟩ ⟨1, 1, 1⟩ 1 1 1 1 (fun _ => halfDraws)).arr 0)
      = mkParticle ⟨0, 0, 0⟩ ⟨1, 1, 1⟩ 1 1 1 halfDraws :=
    emit_one (freshPool 1) ⟨0, 0, 0⟩ ⟨1, 1, 1⟩ 1 1 1 (fun _ => halfDraws) Nat.zero_lt_one
  rw [h, mkParticle_vx, mkParticle_vy, mkParticle_vz]
  norm_num [halfDraws, Real.sqrt_zero]

end DogDash
